import Mathlib

/-!
Verification development for the speaker-aware dynamic cropping engine
(smart_cropper.py, face_tracker.py, audio_analyzer.py, lip_sync_detector.py,
config.py).

Shallow embedding conventions:
* Python machine floats are embedded as exact rationals (ℚ) where the code is
  pure arithmetic on detector outputs, and as reals (ℝ) where transcendental
  functions (exp, sqrt) occur.
* Python `int(x)` truncates toward zero; it is embedded as `intQ`.
  Python `//` on nonnegative operands and `int(a / b)` for nonnegative `a`
  and positive `b` are floors, embedded as `Int.floor` of the exact quotient.
* `collections.deque(maxlen = n)` is embedded as a list (oldest first) with
  the bounded push `pushCap`.
* External services (the MediaPipe face landmarker, the webrtcvad classifier,
  librosa feature extraction, the pyannote diarization pipeline) are inputs of
  the embedded functions, per the spec's external-interface boundary.
-/

/-- Python `int()` conversion: truncation toward zero. -/
def intQ (q : ℚ) : ℤ := if 0 ≤ q then ⌊q⌋ else ⌈q⌉

theorem intQ_of_nonneg {q : ℚ} (h : 0 ≤ q) : intQ q = ⌊q⌋ := if_pos h

/-- Bounded append modelling a deque with maxlen `cap`: push `x` at the right,
drop from the left down to `cap` elements. -/
def pushCap {α : Type} (cap : ℕ) (l : List α) (x : α) : List α :=
  let l' := l ++ [x]
  l'.drop (l'.length - cap)

/-! ## SmartCropper speaker arbitration (smart_cropper.py, lines 150-197)

The arbitration state is the pair of mutable attributes
`current_speaker_id` / `speaker_stability_counter` of `SmartCropper`;
`min_speaker_switch_frames = 15` (line 49).  The per-frame raw vote is the
`active_speaker_id` produced by `MultiPersonLipSync.analyze_frame`. -/

/-- `SmartCropper.min_speaker_switch_frames` (smart_cropper.py line 49). -/
def minSpeakerSwitchFrames : ℕ := 15

/-- The arbitration state machine's persistent memory:
`current_speaker_id` (`none` = no active speaker) and
`speaker_stability_counter`. -/
structure SpeakerState where
  current : Option ℕ
  counter : ℕ
  deriving DecidableEq, Repr

/-- Lines 185-195 of smart_cropper.py: one hysteresis update of the speaker
state from the frame's raw lip-sync vote. -/
def speakerStep (st : SpeakerState) (vote : Option ℕ) : SpeakerState :=
  if vote ≠ st.current then
    if st.counter + 1 ≥ minSpeakerSwitchFrames then
      { current := vote, counter := 0 }
    else
      { current := st.current, counter := st.counter + 1 }
  else
    { current := st.current, counter := 0 }

/-- Iterated hysteresis updates over a sequence of per-frame raw votes. -/
def runVotes (st : SpeakerState) (votes : List (Option ℕ)) : SpeakerState :=
  votes.foldl speakerStep st

/-- A raw-vote sequence of `2 * n` frames that flips every frame between the
two faces `b` and `a`, starting with `b`. -/
def flipRun (a b : ℕ) : ℕ → List (Option ℕ)
  | 0 => []
  | n + 1 => some b :: some a :: flipRun a b n

/-- `SmartCropper.identify_active_speaker` (smart_cropper.py lines 150-197),
with the raw lip-sync vote (the `active_speaker_id` field of
`MultiPersonLipSync.analyze_frame`) supplied as an input.  Returns the updated
arbitration state and the reported active speaker.  The faces list only
matters through its length here, so it is polymorphic in the face payload. -/
def identifyActiveSpeaker {α : Type} (st : SpeakerState) (faces : List α)
    (vote : Option ℕ) : SpeakerState × Option ℕ :=
  if faces.isEmpty then (st, none)
  else if faces.length = 1 then (st, some 0)
  else
    let st' := speakerStep st vote
    (st', some (st'.current.getD 0))

/-- `SmartCropper.detect_faces_in_frame` (smart_cropper.py lines 130-148):
wraps the single-face `FaceTracker.detect_face` result (an external MediaPipe
detection, landmarker configured with `num_faces = 1`) into a list. -/
def detectFacesInFrame {α : Type} (faceData : Option α) : List α :=
  match faceData with
  | some fd => [fd]
  | none => []

theorem speakerStep_of_eq (st : SpeakerState) (vote : Option ℕ)
    (h : vote = st.current) : speakerStep st vote = ⟨st.current, 0⟩ := by
  simp [speakerStep, h]

theorem speakerStep_current_ne_iff (st : SpeakerState) (vote : Option ℕ) :
    (speakerStep st vote).current ≠ st.current ↔
      vote ≠ st.current ∧ minSpeakerSwitchFrames ≤ st.counter + 1 := by
  unfold speakerStep
  split_ifs with h1 h2
  · simp only [ge_iff_le] at h2
    exact ⟨fun _ => ⟨h1, h2⟩, fun _ => h1⟩
  · simp only [ge_iff_le, not_le] at h2
    constructor
    · intro h; exact absurd rfl h
    · rintro ⟨-, hc⟩; omega
  · push_neg at h1
    constructor
    · intro h; exact absurd rfl h
    · rintro ⟨hne, -⟩; exact absurd h1 hne

theorem runVotes_all_diff (c : Option ℕ) :
    ∀ (votes : List (Option ℕ)) (st : SpeakerState), st.current = c →
      (∀ v ∈ votes, v ≠ c) →
      st.counter + votes.length < minSpeakerSwitchFrames →
      runVotes st votes = ⟨c, st.counter + votes.length⟩ := by
  intro votes
  induction votes with
  | nil =>
    intro st hcur _ _
    simp [runVotes, ← hcur]
  | cons v vs ih =>
    intro st hcur hdiff hlen
    have hv : v ≠ c := hdiff v (by simp)
    have hstep : speakerStep st v = ⟨c, st.counter + 1⟩ := by
      unfold speakerStep
      rw [hcur]
      rw [if_pos hv, if_neg (by simp only [List.length_cons] at hlen; omega)]
    have : runVotes st (v :: vs) = runVotes ⟨c, st.counter + 1⟩ vs := by
      simp [runVotes, hstep]
    rw [this, ih ⟨c, st.counter + 1⟩ rfl (fun w hw => hdiff w (by simp [hw]))
      (by simp only [List.length_cons] at hlen; simp; omega)]
    simp only [List.length_cons]
    congr 1
    omega

theorem runVotes_flip (a b : ℕ) (hab : a ≠ b) :
    ∀ n : ℕ, runVotes ⟨some a, 0⟩ (flipRun a b n) = ⟨some a, 0⟩ := by
  intro n
  induction n with
  | zero => rfl
  | succ n ih =>
    have hb : (some b : Option ℕ) ≠ some a := by simp [Ne.symm hab]
    have h1 : speakerStep ⟨some a, 0⟩ (some b) = ⟨some a, 1⟩ := by
      unfold speakerStep minSpeakerSwitchFrames
      simp [hb]
    have h2 : speakerStep ⟨some a, 1⟩ (some a) = ⟨some a, 0⟩ := by
      unfold speakerStep
      simp
    calc runVotes ⟨some a, 0⟩ (flipRun a b (n + 1))
        = runVotes ⟨some a, 0⟩ (flipRun a b n) := by
          simp [flipRun, runVotes, h1, h2]
      _ = ⟨some a, 0⟩ := ih

/-- C1: the committed active speaker changes only when the raw vote has
differed from it on `min_speaker_switch_frames = 15` consecutive frames:
(i) a single update changes the committed speaker iff the vote differs and the
stability counter (which counts consecutive differing votes) reaches the
threshold; (ii) a vote equal to the committed speaker resets the counter to
zero; (iii) a run of differing votes shorter than the threshold only advances
the counter, leaving the committed speaker unchanged; (iv) in particular, on a
raw-vote sequence that flips every frame between two faces, the committed
active speaker never changes. -/
theorem speaker_switch_hysteresis :
    (∀ (st : SpeakerState) (vote : Option ℕ),
      ((speakerStep st vote).current ≠ st.current ↔
        vote ≠ st.current ∧ minSpeakerSwitchFrames ≤ st.counter + 1))
    ∧ (∀ (st : SpeakerState) (vote : Option ℕ), vote = st.current →
        speakerStep st vote = ⟨st.current, 0⟩)
    ∧ (∀ (c : Option ℕ) (votes : List (Option ℕ)) (st : SpeakerState),
        st.current = c → (∀ v ∈ votes, v ≠ c) →
        st.counter + votes.length < minSpeakerSwitchFrames →
        runVotes st votes = ⟨c, st.counter + votes.length⟩)
    ∧ (∀ (a b n : ℕ), a ≠ b →
        (runVotes ⟨some a, 0⟩ (flipRun a b n)).current = some a) :=
  ⟨speakerStep_current_ne_iff, speakerStep_of_eq,
    fun c votes st h1 h2 h3 => runVotes_all_diff c votes st h1 h2 h3,
    fun a b n hab => by rw [runVotes_flip a b hab n]⟩

/-- Witness for C1: concrete instantiation of the flip clause — with the
committed speaker being face 0, 40 frames of votes flipping between face 1 and
face 0 never change the committed speaker. -/
theorem speaker_switch_hysteresis_witness :
    (0 : ℕ) ≠ 1 ∧
      (runVotes ⟨some 0, 0⟩ (flipRun 0 1 20)).current = some 0 :=
  ⟨by decide, speaker_switch_hysteresis.2.2.2 0 1 20 (by decide)⟩

/-! ## FaceTracker.calculate_crop_box (face_tracker.py, lines 196-269)

Configuration constants from config.py, embedded as exact rationals. -/

/-- config.py line 24: FACE_VERTICAL_POSITION = 0.35. -/
def FACE_VERTICAL_POSITION : ℚ := 7 / 20

/-- config.py line 37: HORIZONTAL_MARGIN = 1.5. -/
def HORIZONTAL_MARGIN : ℚ := 3 / 2

/-- config.py line 38: VERTICAL_MARGIN = 2.0. -/
def VERTICAL_MARGIN : ℚ := 2

/-- config.py line 41: MIN_CROP_WIDTH = 480. -/
def MIN_CROP_WIDTH : ℤ := 480

/-- config.py line 42: MAX_ZOOM = 2.0. -/
def MAX_ZOOM : ℚ := 2

/-- Default target_aspect = 9/16 (face_tracker.py line 196). -/
def targetAspect : ℚ := 9 / 16

/-- A detected face's geometric fields as consumed by calculate_crop_box:
normalized center/size plus the optional eyes-center anchor. -/
structure FaceGeom where
  x_center : ℚ
  y_center : ℚ
  width : ℚ
  height : ℚ
  eyes_center : Option (ℚ × ℚ)
  deriving DecidableEq, Repr

/-- face_tracker.py lines 210-220: center crop when no face data. -/
def centerCropBox (fw fh : ℤ) : ℤ × ℤ × ℤ × ℤ :=
  let ch0 : ℤ := fh
  let cw0 : ℤ := intQ ((ch0 : ℚ) * targetAspect)
  let cw : ℤ := if cw0 > fw then fw else cw0
  let ch : ℤ := if cw0 > fw then intQ ((fw : ℚ) / targetAspect) else ch0
  (⌊((fw - cw : ℤ) : ℚ) / 2⌋, ⌊((fh - ch : ℤ) : ℚ) / 2⌋, cw, ch)

/-- face_tracker.py lines 236-249: candidate crop width from the margined face
size, reconciled to the aspect ratio, then clamped below by MIN_CROP_WIDTH and
above by frame_width / MAX_ZOOM (height recomputed after each clamp). -/
def clampCropWidth (fw faceW faceH : ℤ) : ℤ × ℤ :=
  let cw1 : ℤ := max faceW (intQ ((faceH : ℚ) * targetAspect))
  let ch1 : ℤ := intQ ((cw1 : ℚ) / targetAspect)
  let cw2 : ℤ := if cw1 < MIN_CROP_WIDTH then MIN_CROP_WIDTH else cw1
  let ch2 : ℤ := if cw1 < MIN_CROP_WIDTH then intQ ((MIN_CROP_WIDTH : ℚ) / targetAspect) else ch1
  let mcw : ℤ := intQ ((fw : ℚ) / MAX_ZOOM)
  let cw3 : ℤ := if cw2 > mcw then mcw else cw2
  let ch3 : ℤ := if cw2 > mcw then intQ ((mcw : ℚ) / targetAspect) else ch2
  (cw3, ch3)

/-- face_tracker.py lines 251-269: position the crop around the anchor
(eyes at FACE_VERTICAL_POSITION down from the crop's top), clamp the origin
into the frame, then shrink the crop to fit, preserving the aspect ratio. -/
def fitCropToFrame (fw fh faceX faceY cw ch : ℤ) : ℤ × ℤ × ℤ × ℤ :=
  let cx0 : ℤ := faceX - ⌊(cw : ℚ) / 2⌋
  let cy0 : ℤ := intQ ((faceY : ℚ) - (ch : ℚ) * FACE_VERTICAL_POSITION)
  let cx : ℤ := max 0 (min cx0 (fw - cw))
  let cy : ℤ := max 0 (min cy0 (fh - ch))
  let cw4 : ℤ := if cx + cw > fw then fw - cx else cw
  let ch4 : ℤ := if cx + cw > fw then intQ (((fw - cx : ℤ) : ℚ) / targetAspect) else ch
  let ch5 : ℤ := if cy + ch4 > fh then fh - cy else ch4
  let cw5 : ℤ := if cy + ch4 > fh then intQ (((fh - cy : ℤ) : ℚ) * targetAspect) else cw4
  (cx, cy, cw5, ch5)

/-- FaceTracker.calculate_crop_box (face_tracker.py lines 196-269), with the
default target_aspect = 9/16.  The face's anchor point is the eyes center when
available, else the bounding-box center (lines 222-228); normalized
coordinates are converted to pixels with the configured margins
(lines 230-234). -/
def calculateCropBox (faceData : Option FaceGeom) (fw fh : ℤ) : ℤ × ℤ × ℤ × ℤ :=
  match faceData with
  | none => centerCropBox fw fh
  | some fd =>
    let focus : ℚ × ℚ :=
      match fd.eyes_center with
      | some ec => ec
      | none => (fd.x_center, fd.y_center)
    let faceX : ℤ := intQ (focus.1 * (fw : ℚ))
    let faceY : ℤ := intQ (focus.2 * (fh : ℚ))
    let faceW : ℤ := intQ (fd.width * (fw : ℚ) * HORIZONTAL_MARGIN)
    let faceH : ℤ := intQ (fd.height * (fh : ℚ) * VERTICAL_MARGIN)
    let wh := clampCropWidth fw faceW faceH
    fitCropToFrame fw fh faceX faceY wh.1 wh.2

theorem intQ_div_ta (a : ℤ) (h : 0 ≤ a) :
    intQ ((a : ℚ) / targetAspect) = ⌊(a : ℚ) * 16 / 9⌋ := by
  rw [intQ_of_nonneg (by unfold targetAspect; positivity)]
  congr 1
  unfold targetAspect
  ring

theorem intQ_mul_ta (a : ℤ) (h : 0 ≤ a) :
    intQ ((a : ℚ) * targetAspect) = ⌊(a : ℚ) * 9 / 16⌋ := by
  rw [intQ_of_nonneg (by unfold targetAspect; positivity)]
  congr 1
  unfold targetAspect
  ring

theorem floor_wide (a b : ℤ) (hb : b = ⌊(a : ℚ) * 16 / 9⌋) :
    9 * b ≤ 16 * a ∧ 16 * a ≤ 9 * b + 8 := by
  have h1 : ((b : ℚ)) ≤ (a : ℚ) * 16 / 9 := hb ▸ Int.floor_le _
  have h2 : (a : ℚ) * 16 / 9 < (b : ℚ) + 1 := hb ▸ Int.lt_floor_add_one _
  constructor
  · exact_mod_cast (by push_cast; linarith : ((9 * b : ℤ) : ℚ) ≤ ((16 * a : ℤ) : ℚ))
  · have h3 : (16 * a : ℤ) < 9 * b + 9 :=
      (by exact_mod_cast (by push_cast; linarith : ((16 * a : ℤ) : ℚ) < ((9 * b + 9 : ℤ) : ℚ)))
    omega

theorem floor_tall (a b : ℤ) (hb : b = ⌊(a : ℚ) * 9 / 16⌋) :
    16 * b ≤ 9 * a ∧ 9 * a ≤ 16 * b + 15 := by
  have h1 : ((b : ℚ)) ≤ (a : ℚ) * 9 / 16 := hb ▸ Int.floor_le _
  have h2 : (a : ℚ) * 9 / 16 < (b : ℚ) + 1 := hb ▸ Int.lt_floor_add_one _
  constructor
  · exact_mod_cast (by push_cast; linarith : ((16 * b : ℤ) : ℚ) ≤ ((9 * a : ℤ) : ℚ))
  · have h3 : (9 * a : ℤ) < 16 * b + 16 :=
      (by exact_mod_cast (by push_cast; linarith : ((9 * a : ℤ) : ℚ) < ((16 * b + 16 : ℤ) : ℚ)))
    omega

theorem floor_half (a b : ℤ) (hb : b = ⌊(a : ℚ) / 2⌋) :
    2 * b ≤ a ∧ a ≤ 2 * b + 1 := by
  have h1 : ((b : ℚ)) ≤ (a : ℚ) / 2 := hb ▸ Int.floor_le _
  have h2 : (a : ℚ) / 2 < (b : ℚ) + 1 := hb ▸ Int.lt_floor_add_one _
  constructor
  · exact_mod_cast (by push_cast; linarith : ((2 * b : ℤ) : ℚ) ≤ ((a : ℤ) : ℚ))
  · have h3 : (a : ℤ) < 2 * b + 2 :=
      (by exact_mod_cast (by push_cast; linarith : ((a : ℤ) : ℚ) < ((2 * b + 2 : ℤ) : ℚ)))
    omega

theorem intQ_half (a : ℤ) (h : 0 ≤ a) :
    intQ ((a : ℚ) / MAX_ZOOM) = ⌊(a : ℚ) / 2⌋ := by
  rw [intQ_of_nonneg (by unfold MAX_ZOOM; positivity)]
  rfl

theorem clampCropWidth_spec (fw faceW faceH : ℤ) (hfw : 0 ≤ fw) :
    0 ≤ (clampCropWidth fw faceW faceH).1 ∧
      (clampCropWidth fw faceW faceH).1 ≤ ⌊(fw : ℚ) / 2⌋ ∧
      (clampCropWidth fw faceW faceH).2 =
        ⌊((clampCropWidth fw faceW faceH).1 : ℚ) * 16 / 9⌋ ∧
      (480 ≤ ⌊(fw : ℚ) / 2⌋ → 480 ≤ (clampCropWidth fw faceW faceH).1) := by
  have hmcw0 : (0 : ℤ) ≤ ⌊(fw : ℚ) / 2⌋ := Int.floor_nonneg.mpr (by positivity)
  unfold clampCropWidth
  rw [intQ_half fw hfw]
  simp only [MIN_CROP_WIDTH]
  by_cases h1 : max faceW (intQ ((faceH : ℚ) * targetAspect)) < 480
  · rw [if_pos h1, if_pos h1]
    by_cases h2 : (480 : ℤ) > ⌊(fw : ℚ) / 2⌋
    · rw [if_pos h2, if_pos h2]
      exact ⟨hmcw0, le_refl _, (intQ_div_ta _ hmcw0).symm ▸ rfl, fun h => by omega⟩
    · rw [if_neg h2, if_neg h2]
      refine ⟨by omega, by omega, ?_, fun _ => by omega⟩
      rw [intQ_div_ta 480 (by omega)]
  · rw [if_neg h1, if_neg h1]
    push_neg at h1
    by_cases h2 : max faceW (intQ ((faceH : ℚ) * targetAspect)) > ⌊(fw : ℚ) / 2⌋
    · rw [if_pos h2, if_pos h2]
      exact ⟨hmcw0, le_refl _, (intQ_div_ta _ hmcw0).symm ▸ rfl, fun h => by omega⟩
    · rw [if_neg h2, if_neg h2]
      push_neg at h2
      refine ⟨by omega, h2, ?_, fun _ => by omega⟩
      rw [intQ_div_ta _ (by omega)]

theorem centerCropBox_spec (fw fh : ℤ) (hfw : 0 < fw) (hfh : 0 < fh) :
    0 ≤ (centerCropBox fw fh).1 ∧ 0 ≤ (centerCropBox fw fh).2.1 ∧
      (centerCropBox fw fh).1 + (centerCropBox fw fh).2.2.1 ≤ fw ∧
      (centerCropBox fw fh).2.1 + (centerCropBox fw fh).2.2.2 ≤ fh ∧
      16 * (centerCropBox fw fh).2.2.1 ≤ 9 * (centerCropBox fw fh).2.2.2 + 15 ∧
      9 * (centerCropBox fw fh).2.2.2 ≤ 16 * (centerCropBox fw fh).2.2.1 + 15 := by
  simp only [centerCropBox]
  rw [intQ_mul_ta fh (by omega)]
  by_cases h1 : ⌊(fh : ℚ) * 9 / 16⌋ > fw
  · rw [if_pos h1, if_pos h1]
    rw [intQ_div_ta fw (by omega)]
    have hch := floor_wide fw ⌊(fw : ℚ) * 16 / 9⌋ rfl
    have hcw0 := floor_tall fh ⌊(fh : ℚ) * 9 / 16⌋ rfl
    have hx := floor_half (fw - fw) ⌊((fw - fw : ℤ) : ℚ) / 2⌋ rfl
    have hy := floor_half (fh - ⌊(fw : ℚ) * 16 / 9⌋) _ rfl
    have hyn : 0 ≤ fh - ⌊(fw : ℚ) * 16 / 9⌋ := by omega
    refine ⟨by omega, by omega, by omega, by omega, by omega, by omega⟩
  · rw [if_neg h1, if_neg h1]
    push_neg at h1
    have hcw0 := floor_tall fh ⌊(fh : ℚ) * 9 / 16⌋ rfl
    have hcwn : 0 ≤ ⌊(fh : ℚ) * 9 / 16⌋ := Int.floor_nonneg.mpr (by positivity)
    have hx := floor_half (fw - ⌊(fh : ℚ) * 9 / 16⌋) _ rfl
    have hy := floor_half (fh - fh) ⌊((fh - fh : ℤ) : ℚ) / 2⌋ rfl
    refine ⟨by omega, by omega, by omega, by omega, by omega, by omega⟩

theorem fitCropToFrame_spec (fw fh faceX faceY cw ch : ℤ)
    (hfh : 0 ≤ fh) (hcwf : cw ≤ fw)
    (hch : ch = ⌊(cw : ℚ) * 16 / 9⌋) :
    0 ≤ (fitCropToFrame fw fh faceX faceY cw ch).1 ∧
      0 ≤ (fitCropToFrame fw fh faceX faceY cw ch).2.1 ∧
      (fitCropToFrame fw fh faceX faceY cw ch).1 +
        (fitCropToFrame fw fh faceX faceY cw ch).2.2.1 ≤ fw ∧
      (fitCropToFrame fw fh faceX faceY cw ch).2.1 +
        (fitCropToFrame fw fh faceX faceY cw ch).2.2.2 ≤ fh ∧
      16 * (fitCropToFrame fw fh faceX faceY cw ch).2.2.1 ≤
        9 * (fitCropToFrame fw fh faceX faceY cw ch).2.2.2 + 15 ∧
      9 * (fitCropToFrame fw fh faceX faceY cw ch).2.2.2 ≤
        16 * (fitCropToFrame fw fh faceX faceY cw ch).2.2.1 + 15 ∧
      (480 ≤ cw → cw ≤ ⌊(fw : ℚ) / 2⌋ → 854 ≤ fh →
        480 ≤ (fitCropToFrame fw fh faceX faceY cw ch).2.2.1 ∧
          (fitCropToFrame fw fh faceX faceY cw ch).2.2.1 ≤ ⌊(fw : ℚ) / 2⌋) := by
  have hchw := floor_wide cw ch hch
  simp only [fitCropToFrame]
  set cx := max 0 (min (faceX - ⌊(cw : ℚ) / 2⌋) (fw - cw)) with hcx
  set cy := max 0
    (min (intQ ((faceY : ℚ) - (ch : ℚ) * FACE_VERTICAL_POSITION)) (fh - ch)) with hcy
  have hcxnn : (0 : ℤ) ≤ cx := le_max_left _ _
  have hcynn : (0 : ℤ) ≤ cy := le_max_left _ _
  have hcxle : cx ≤ fw - cw := max_le (by omega) (min_le_right _ _)
  split_ifs with hA hB1 hB2
  · exfalso; omega
  · exfalso; omega
  · -- crop taller than the frame: shrink height to fh, recompute width
    have hchfh : fh < ch := by
      by_contra hcon
      push_neg at hcon
      have : cy ≤ fh - ch := max_le (by omega) (min_le_right _ _)
      omega
    have hcyeq : cy = 0 := by
      rw [hcy]
      exact max_eq_left (le_trans (min_le_right _ _) (by omega))
    rw [hcyeq, sub_zero, intQ_mul_ta fh hfh]
    have hcw5 := floor_tall fh _ rfl
    refine ⟨hcxnn, le_refl 0, by omega, by omega, by omega, by omega,
      fun h1 h2 h3 => ⟨by omega, by omega⟩⟩
  · refine ⟨hcxnn, hcynn, by omega, by omega, by omega, by omega,
      fun h1 h2 h3 => ⟨h1, h2⟩⟩

/-- The output conditions claimed for calculate_crop_box: aspect ratio 9/16 up
to integer rounding, the MIN_CROP_WIDTH/MAX_ZOOM width window, and containment
in the frame. -/
def claimedCropSpec (box : ℤ × ℤ × ℤ × ℤ) (fw fh : ℤ) : Prop :=
  16 * box.2.2.1 ≤ 9 * box.2.2.2 + 15 ∧ 9 * box.2.2.2 ≤ 16 * box.2.2.1 + 15 ∧
    MIN_CROP_WIDTH ≤ box.2.2.1 ∧ box.2.2.1 ≤ intQ ((fw : ℚ) / MAX_ZOOM) ∧
    0 ≤ box.1 ∧ box.1 + box.2.2.1 ≤ fw ∧
    0 ≤ box.2.1 ∧ box.2.1 + box.2.2.2 ≤ fh

theorem cropBox_some_spec (fw fh fX fY fW fH : ℤ) (hfw : 0 < fw) (hfh : 0 < fh) :
    0 ≤ (fitCropToFrame fw fh fX fY (clampCropWidth fw fW fH).1
          (clampCropWidth fw fW fH).2).1 ∧
      0 ≤ (fitCropToFrame fw fh fX fY (clampCropWidth fw fW fH).1
            (clampCropWidth fw fW fH).2).2.1 ∧
      (fitCropToFrame fw fh fX fY (clampCropWidth fw fW fH).1
          (clampCropWidth fw fW fH).2).1 +
        (fitCropToFrame fw fh fX fY (clampCropWidth fw fW fH).1
            (clampCropWidth fw fW fH).2).2.2.1 ≤ fw ∧
      (fitCropToFrame fw fh fX fY (clampCropWidth fw fW fH).1
          (clampCropWidth fw fW fH).2).2.1 +
        (fitCropToFrame fw fh fX fY (clampCropWidth fw fW fH).1
            (clampCropWidth fw fW fH).2).2.2.2 ≤ fh ∧
      16 * (fitCropToFrame fw fh fX fY (clampCropWidth fw fW fH).1
            (clampCropWidth fw fW fH).2).2.2.1 ≤
        9 * (fitCropToFrame fw fh fX fY (clampCropWidth fw fW fH).1
              (clampCropWidth fw fW fH).2).2.2.2 + 15 ∧
      9 * (fitCropToFrame fw fh fX fY (clampCropWidth fw fW fH).1
            (clampCropWidth fw fW fH).2).2.2.2 ≤
        16 * (fitCropToFrame fw fh fX fY (clampCropWidth fw fW fH).1
              (clampCropWidth fw fW fH).2).2.2.1 + 15 ∧
      (960 ≤ fw → 854 ≤ fh →
        480 ≤ (fitCropToFrame fw fh fX fY (clampCropWidth fw fW fH).1
              (clampCropWidth fw fW fH).2).2.2.1 ∧
          (fitCropToFrame fw fh fX fY (clampCropWidth fw fW fH).1
              (clampCropWidth fw fW fH).2).2.2.1 ≤ ⌊(fw : ℚ) / 2⌋) := by
  obtain ⟨h1, h2, h3, h4⟩ := clampCropWidth_spec fw fW fH (by omega)
  have hm0 : (0 : ℤ) ≤ ⌊(fw : ℚ) / 2⌋ := Int.floor_nonneg.mpr (by positivity)
  have hmf := floor_half fw _ rfl
  have hcwfw : (clampCropWidth fw fW fH).1 ≤ fw := by omega
  obtain ⟨g1, g2, g3, g4, g5, g6, g7⟩ :=
    fitCropToFrame_spec fw fh fX fY _ _ (by omega) hcwfw h3
  refine ⟨g1, g2, g3, g4, g5, g6, fun h960 h854 => ?_⟩
  have h480 : (480 : ℤ) ≤ ⌊(fw : ℚ) / 2⌋ := by omega
  exact g7 (h4 h480) h2 h854

/-- C2 counterexample: for the no-face input on a 100 x 100 frame the
calculated crop box is (22, 0, 56, 100), whose width 56 violates both
MIN_CROP_WIDTH <= width and width <= frame_width / MAX_ZOOM, so the claimed
output conditions do not hold for every input and positive frame size. -/
theorem calculateCropBox_claim_fails :
    ¬ claimedCropSpec (calculateCropBox none 100 100) 100 100 := by
  unfold claimedCropSpec calculateCropBox centerCropBox intQ
  norm_num [targetAspect, MIN_CROP_WIDTH, MAX_ZOOM]

/-- C2 (amended): for every face observation (or none) and positive frame
size, the calculated crop box lies inside the frame (0 <= x, x + w <= fw,
0 <= y, y + h <= fh) and its width/height ratio is 9/16 up to integer
rounding (|16 w - 9 h| <= 15); the width window
MIN_CROP_WIDTH <= w <= frame_width / MAX_ZOOM additionally holds whenever a
face is present and the frame is at least 960 wide (so that
frame_width / MAX_ZOOM >= MIN_CROP_WIDTH) and at least 854 high (so that a
height-limited crop still reaches MIN_CROP_WIDTH). -/
theorem calculateCropBox_spec (faceData : Option FaceGeom) (fw fh : ℤ)
    (hfw : 0 < fw) (hfh : 0 < fh) :
    (0 ≤ (calculateCropBox faceData fw fh).1 ∧
      0 ≤ (calculateCropBox faceData fw fh).2.1 ∧
      (calculateCropBox faceData fw fh).1 +
        (calculateCropBox faceData fw fh).2.2.1 ≤ fw ∧
      (calculateCropBox faceData fw fh).2.1 +
        (calculateCropBox faceData fw fh).2.2.2 ≤ fh ∧
      16 * (calculateCropBox faceData fw fh).2.2.1 ≤
        9 * (calculateCropBox faceData fw fh).2.2.2 + 15 ∧
      9 * (calculateCropBox faceData fw fh).2.2.2 ≤
        16 * (calculateCropBox faceData fw fh).2.2.1 + 15) ∧
      (faceData.isSome → 2 * MIN_CROP_WIDTH ≤ fw → 854 ≤ fh →
        MIN_CROP_WIDTH ≤ (calculateCropBox faceData fw fh).2.2.1 ∧
          (calculateCropBox faceData fw fh).2.2.1 ≤ intQ ((fw : ℚ) / MAX_ZOOM)) := by
  cases faceData with
  | none =>
    obtain ⟨h1, h2, h3, h4, h5, h6⟩ := centerCropBox_spec fw fh hfw hfh
    exact ⟨⟨h1, h2, h3, h4, h5, h6⟩, fun h => by simp at h⟩
  | some fd =>
    simp only [calculateCropBox]
    obtain ⟨g1, g2, g3, g4, g5, g6, g7⟩ := cropBox_some_spec fw fh
      (intQ ((match fd.eyes_center with
              | some ec => ec
              | none => (fd.x_center, fd.y_center)).1 * (fw : ℚ)))
      (intQ ((match fd.eyes_center with
              | some ec => ec
              | none => (fd.x_center, fd.y_center)).2 * (fh : ℚ)))
      (intQ (fd.width * (fw : ℚ) * HORIZONTAL_MARGIN))
      (intQ (fd.height * (fh : ℚ) * VERTICAL_MARGIN)) hfw hfh
    refine ⟨⟨g1, g2, g3, g4, g5, g6⟩, fun _ h960 h854 => ?_⟩
    have h960' : (960 : ℤ) ≤ fw := by
      simp only [MIN_CROP_WIDTH] at h960; omega
    obtain ⟨w1, w2⟩ := g7 h960' h854
    rw [intQ_half fw (by omega)]
    exact ⟨by simp only [MIN_CROP_WIDTH]; exact w1, w2⟩

/-- Witness for C2 (amended): a concrete face on a 1920 x 1080 frame. -/
theorem calculateCropBox_spec_witness :
    0 ≤ (calculateCropBox (some ⟨1/2, 2/5, 1/5, 1/4, none⟩) 1920 1080).1 ∧
      MIN_CROP_WIDTH ≤
        (calculateCropBox (some ⟨1/2, 2/5, 1/5, 1/4, none⟩) 1920 1080).2.2.1 := by
  have h := calculateCropBox_spec (some ⟨1/2, 2/5, 1/5, 1/4, none⟩) 1920 1080
    (by norm_num) (by norm_num)
  exact ⟨h.1.1, (h.2 (by decide) (by decide) (by norm_num)).1⟩

/-! ## SmartCropper crop pipeline (smart_cropper.py, lines 199-311) -/

/-- numpy linspace(a, b, n) at index i: evenly spaced points from a to b
inclusive (for n = 1 the single point is a, matching numpy). -/
noncomputable def linspace (a b : ℝ) (n i : ℕ) : ℝ :=
  a + (b - a) * i / ((n : ℝ) - 1)

/-- The raw exponential weights np.exp(np.linspace(-2, 0, n)) used by every
smoother in the pipeline (face_tracker.py line 168, smart_cropper.py
line 250). -/
noncomputable def expWeights (n : ℕ) : List ℝ :=
  (List.range n).map (fun i => Real.exp (linspace (-2) 0 n i))

/-- The normalized weights (weights /= weights.sum()). -/
noncomputable def normWeights (n : ℕ) : List ℝ :=
  (expWeights n).map (fun w => w / (expWeights n).sum)

/-- Elementwise product sum of a weight list and a value list. -/
def dotW (ws vs : List ℝ) : ℝ := (List.zipWith (· * ·) ws vs).sum

/-- np.average(vs, weights = ws): the weighted sum divided by the weight
total. -/
noncomputable def npAverage (ws vs : List ℝ) : ℝ := dotW ws vs / ws.sum

/-- Python int() on a float result, truncation toward zero. -/
noncomputable def intR (x : ℝ) : ℤ := if 0 ≤ x then ⌊x⌋ else ⌈x⌉

/-- smart_cropper.py lines 213-222: default 9:16 center crop used by
calculate_smart_crop when no faces or no active speaker. -/
def defaultCenterCrop (fw fh : ℤ) : ℤ × ℤ × ℤ × ℤ :=
  let ch0 : ℤ := fh
  let cw0 : ℤ := intQ ((ch0 : ℚ) * 9 / 16)
  let cw : ℤ := if cw0 > fw then fw else cw0
  let ch : ℤ := if cw0 > fw then intQ ((fw : ℚ) * 16 / 9) else ch0
  (⌊((fw - cw : ℤ) : ℚ) / 2⌋, ⌊((fh - ch : ℤ) : ℚ) / 2⌋, cw, ch)

/-- SmartCropper.calculate_smart_crop (smart_cropper.py lines 199-232):
center crop when no faces or no active speaker, else the active speaker's
face (falling back to the first face for an out-of-range id) is cropped via
FaceTracker.calculate_crop_box. -/
def calculateSmartCrop (faces : List FaceGeom) (activeSpeakerId : Option ℕ)
    (fw fh : ℤ) : ℤ × ℤ × ℤ × ℤ :=
  match faces, activeSpeakerId with
  | [], _ => defaultCenterCrop fw fh
  | _ :: _, none => defaultCenterCrop fw fh
  | f :: fs, some sid =>
    let activeFace := (f :: fs).getD sid f
    calculateCropBox (some activeFace) fw fh

/-- SmartCropper.smooth_crop_box (smart_cropper.py lines 234-260): push the
instantaneous crop box onto the bounded history (smoothing_window = 20), then
return it unchanged while fewer than two boxes are stored, else the
componentwise exponentially weighted average rounded to integers.  Returns
the new history together with the smoothed box. -/
noncomputable def smoothCropBox (hist : List (ℤ × ℤ × ℤ × ℤ))
    (box : ℤ × ℤ × ℤ × ℤ) : List (ℤ × ℤ × ℤ × ℤ) × (ℤ × ℤ × ℤ × ℤ) :=
  let hist' := pushCap 20 hist box
  if hist'.length < 2 then (hist', box)
  else
    let ws := normWeights hist'.length
    (hist',
      (intR (npAverage ws (hist'.map (fun b => ((b.1 : ℤ) : ℝ)))),
        intR (npAverage ws (hist'.map (fun b => ((b.2.1 : ℤ) : ℝ)))),
        intR (npAverage ws (hist'.map (fun b => ((b.2.2.1 : ℤ) : ℝ)))),
        intR (npAverage ws (hist'.map (fun b => ((b.2.2.2 : ℤ) : ℝ))))))

/-- smart_cropper.py line 296: the final clamp applied to the smoothed crop
box before pixel extraction.  The right-hand sides are evaluated
simultaneously (Python tuple assignment), so the min terms use the
unclamped x and y. -/
def applyCropBounds (w h x y cw ch : ℤ) : ℤ × ℤ × ℤ × ℤ :=
  (max 0 x, max 0 y, min cw (w - x), min ch (h - y))

theorem intR_nonneg {x : ℝ} (h : 0 ≤ x) : 0 ≤ intR x := by
  rw [intR, if_pos h]
  exact Int.floor_nonneg.mpr h

theorem normWeights_nonneg (n : ℕ) : ∀ w ∈ normWeights n, 0 ≤ w := by
  intro w hw
  simp only [normWeights, List.mem_map] at hw
  obtain ⟨e, he, rfl⟩ := hw
  have he0 : 0 ≤ e := by
    simp only [expWeights, List.mem_map] at he
    obtain ⟨i, -, rfl⟩ := he
    exact (Real.exp_pos _).le
  refine div_nonneg he0 (List.sum_nonneg ?_)
  intro a ha
  simp only [expWeights, List.mem_map] at ha
  obtain ⟨i, -, rfl⟩ := ha
  exact (Real.exp_pos _).le

theorem dotW_nonneg : ∀ (ws vs : List ℝ), (∀ w ∈ ws, 0 ≤ w) →
    (∀ v ∈ vs, 0 ≤ v) → 0 ≤ dotW ws vs := by
  intro ws
  induction ws with
  | nil => intro vs _ _; simp [dotW]
  | cons w ws ih =>
    intro vs hw hv
    cases vs with
    | nil => simp [dotW]
    | cons v vs =>
      simp only [dotW, List.zipWith_cons_cons, List.sum_cons]
      have h1 : 0 ≤ w * v :=
        mul_nonneg (hw w (by simp)) (hv v (by simp))
      have h2 : 0 ≤ dotW ws vs :=
        ih vs (fun a ha => hw a (by simp [ha])) (fun a ha => hv a (by simp [ha]))
      simpa [dotW] using add_nonneg h1 h2

theorem npAverage_nonneg (ws vs : List ℝ) (hw : ∀ w ∈ ws, 0 ≤ w)
    (hv : ∀ v ∈ vs, 0 ≤ v) : 0 ≤ npAverage ws vs :=
  div_nonneg (dotW_nonneg ws vs hw hv) (List.sum_nonneg hw)

theorem mem_pushCap_self {α : Type} (cap : ℕ) (hcap : 1 ≤ cap)
    (l : List α) (x : α) : x ∈ pushCap cap l x := by
  simp only [pushCap]
  rw [List.drop_append_eq_append_drop]
  refine List.mem_append_right _ ?_
  have : (l ++ [x]).length - cap - l.length = 0 := by
    simp only [List.length_append, List.length_singleton]
    omega
  rw [this]
  simp

theorem defaultCenterCrop_origin (fw fh : ℤ) (hfw : 0 < fw) (hfh : 0 < fh) :
    0 ≤ (defaultCenterCrop fw fh).1 ∧ 0 ≤ (defaultCenterCrop fw fh).2.1 := by
  simp only [defaultCenterCrop]
  rw [intQ_of_nonneg (q := (fh : ℚ) * 9 / 16) (by positivity)]
  by_cases h : ⌊(fh : ℚ) * 9 / 16⌋ > fw
  · rw [if_pos h, if_pos h, intQ_of_nonneg (by positivity)]
    have hch := floor_wide fw ⌊(fw : ℚ) * 16 / 9⌋ rfl
    have hcw0 := floor_tall fh ⌊(fh : ℚ) * 9 / 16⌋ rfl
    have hx := floor_half (fw - fw) ⌊((fw - fw : ℤ) : ℚ) / 2⌋ rfl
    have hy := floor_half (fh - ⌊(fw : ℚ) * 16 / 9⌋) _ rfl
    exact ⟨by omega, by omega⟩
  · rw [if_neg h, if_neg h]
    push_neg at h
    have hcwn : (0 : ℤ) ≤ ⌊(fh : ℚ) * 9 / 16⌋ := Int.floor_nonneg.mpr (by positivity)
    have hx := floor_half (fw - ⌊(fh : ℚ) * 9 / 16⌋) _ rfl
    have hy := floor_half (fh - fh) ⌊((fh - fh : ℤ) : ℚ) / 2⌋ rfl
    exact ⟨by omega, by omega⟩

theorem calculateSmartCrop_origin (faces : List FaceGeom) (asid : Option ℕ)
    (fw fh : ℤ) (hfw : 0 < fw) (hfh : 0 < fh) :
    0 ≤ (calculateSmartCrop faces asid fw fh).1 ∧
      0 ≤ (calculateSmartCrop faces asid fw fh).2.1 := by
  match faces, asid with
  | [], _ =>
    simp only [calculateSmartCrop]
    exact defaultCenterCrop_origin fw fh hfw hfh
  | _ :: _, none =>
    simp only [calculateSmartCrop]
    exact defaultCenterCrop_origin fw fh hfw hfh
  | f :: fs, some sid =>
    simp only [calculateSmartCrop, calculateCropBox]
    obtain ⟨g1, g2, -⟩ := cropBox_some_spec fw fh
      (intQ ((match ((f :: fs).getD sid f).eyes_center with
              | some ec => ec
              | none => (((f :: fs).getD sid f).x_center,
                  ((f :: fs).getD sid f).y_center)).1 * (fw : ℚ)))
      (intQ ((match ((f :: fs).getD sid f).eyes_center with
              | some ec => ec
              | none => (((f :: fs).getD sid f).x_center,
                  ((f :: fs).getD sid f).y_center)).2 * (fh : ℚ)))
      (intQ (((f :: fs).getD sid f).width * (fw : ℚ) * HORIZONTAL_MARGIN))
      (intQ (((f :: fs).getD sid f).height * (fh : ℚ) * VERTICAL_MARGIN)) hfw hfh
    exact ⟨g1, g2⟩

theorem smoothCropBox_hist (hist : List (ℤ × ℤ × ℤ × ℤ)) (box : ℤ × ℤ × ℤ × ℤ) :
    (smoothCropBox hist box).1 = pushCap 20 hist box := by
  simp only [smoothCropBox]
  split_ifs <;> rfl

theorem smoothCropBox_origin (hist : List (ℤ × ℤ × ℤ × ℤ))
    (box : ℤ × ℤ × ℤ × ℤ)
    (hall : ∀ b ∈ (smoothCropBox hist box).1, 0 ≤ b.1 ∧ 0 ≤ b.2.1) :
    0 ≤ (smoothCropBox hist box).2.1 ∧ 0 ≤ (smoothCropBox hist box).2.2.1 := by
  rw [smoothCropBox_hist] at hall
  simp only [smoothCropBox]
  split_ifs with hlen
  · exact hall box (mem_pushCap_self 20 (by omega) hist box)
  · constructor
    · refine intR_nonneg (npAverage_nonneg _ _ (normWeights_nonneg _) ?_)
      intro v hv
      simp only [List.mem_map] at hv
      obtain ⟨b, hb, rfl⟩ := hv
      exact_mod_cast (hall b hb).1
    · refine intR_nonneg (npAverage_nonneg _ _ (normWeights_nonneg _) ?_)
      intro v hv
      simp only [List.mem_map] at hv
      obtain ⟨b, hb, rfl⟩ := hv
      exact_mod_cast (hall b hb).2

/-- C10: the crop applied by process_frame stays inside the frame.
(i) The final clamp of line 296 maps any smoothed box with nonnegative origin
to a box with 0 <= x, 0 <= y, x + cw <= w and y + ch <= h, even when the box
exceeds the frame on the right or bottom; (ii) every instantaneous crop box
from calculate_smart_crop has nonnegative origin; (iii) smooth_crop_box
preserves nonnegative origins, so the smoothed box fed to the clamp indeed
has a nonnegative origin along the actual pipeline. -/
theorem process_frame_crop_in_bounds :
    (∀ (w h x y cw ch : ℤ), 0 ≤ x → 0 ≤ y →
      0 ≤ (applyCropBounds w h x y cw ch).1 ∧
        0 ≤ (applyCropBounds w h x y cw ch).2.1 ∧
        (applyCropBounds w h x y cw ch).1 +
          (applyCropBounds w h x y cw ch).2.2.1 ≤ w ∧
        (applyCropBounds w h x y cw ch).2.1 +
          (applyCropBounds w h x y cw ch).2.2.2 ≤ h)
    ∧ (∀ (faces : List FaceGeom) (asid : Option ℕ) (fw fh : ℤ),
        0 < fw → 0 < fh →
        0 ≤ (calculateSmartCrop faces asid fw fh).1 ∧
          0 ≤ (calculateSmartCrop faces asid fw fh).2.1)
    ∧ (∀ (hist : List (ℤ × ℤ × ℤ × ℤ)) (box : ℤ × ℤ × ℤ × ℤ),
        (∀ b ∈ (smoothCropBox hist box).1, 0 ≤ b.1 ∧ 0 ≤ b.2.1) →
        0 ≤ (smoothCropBox hist box).2.1 ∧
          0 ≤ (smoothCropBox hist box).2.2.1) := by
  refine ⟨?_, calculateSmartCrop_origin, smoothCropBox_origin⟩
  intro w h x y cw ch hx hy
  simp only [applyCropBounds]
  have h1 := min_le_right cw (w - x)
  have h2 := min_le_right ch (h - y)
  have h3 : max 0 x = x := max_eq_right hx
  have h4 : max 0 y = y := max_eq_right hy
  exact ⟨le_max_left _ _, le_max_left _ _, by omega, by omega⟩

/-- Witness for C10: the clamp at a concrete over-large smoothed box on a
100 x 100 frame. -/
theorem process_frame_crop_in_bounds_witness :
    0 ≤ (applyCropBounds 100 100 5 7 200 300).1 ∧
      0 ≤ (applyCropBounds 100 100 5 7 200 300).2.1 ∧
      (applyCropBounds 100 100 5 7 200 300).1 +
        (applyCropBounds 100 100 5 7 200 300).2.2.1 ≤ 100 ∧
      (applyCropBounds 100 100 5 7 200 300).2.1 +
        (applyCropBounds 100 100 5 7 200 300).2.2.2 ≤ 100 :=
  process_frame_crop_in_bounds.1 100 100 5 7 200 300 (by decide) (by decide)

/-- C9: through the public per-frame interface at most one face is ever
detected — detect_faces_in_frame wraps the single-face detect_face result
(landmarker configured with num_faces = 1) as a list of length 0 or 1 — so
the multi-face lip-sync arbitration branch of identify_active_speaker is
never executed (the arbitration state is returned unchanged) and the reported
active speaker is always none or face 0. -/
theorem detect_faces_single_spec :
    ∀ {α : Type} (faceData : Option α) (st : SpeakerState) (vote : Option ℕ),
      (detectFacesInFrame faceData).length ≤ 1 ∧
        (identifyActiveSpeaker st (detectFacesInFrame faceData) vote).1 = st ∧
        ((identifyActiveSpeaker st (detectFacesInFrame faceData) vote).2 = none ∨
          (identifyActiveSpeaker st (detectFacesInFrame faceData) vote).2 = some 0) := by
  intro α faceData st vote
  cases faceData with
  | none =>
    refine ⟨by simp [detectFacesInFrame], ?_, Or.inl ?_⟩ <;>
      simp [detectFacesInFrame, identifyActiveSpeaker]
  | some fd =>
    refine ⟨by simp [detectFacesInFrame], ?_, Or.inr ?_⟩ <;>
      simp [detectFacesInFrame, identifyActiveSpeaker]

/-! ## FaceTracker.get_smoothed_position (face_tracker.py, lines 140-194) -/

/-- config.py line 28: SMOOTHING_WINDOW = 15. -/
def SMOOTHING_WINDOW : ℕ := 15

/-- The landmarks record stored in landmark_history; the smoother only reads
its eyes_center field. -/
structure Landmarks where
  eyes_center : ℝ × ℝ

/-- A face observation dict as produced by detect_face and smoothed by
get_smoothed_position. -/
structure FaceObs where
  x_center : ℝ
  y_center : ℝ
  width : ℝ
  height : ℝ
  confidence : ℝ
  face_angle : ℝ
  eyes_center : Option (ℝ × ℝ)
  landmarks : Option Landmarks

/-- The FaceTracker smoothing state: the two bounded histories
(position_history, landmark_history), both deques with
maxlen = SMOOTHING_WINDOW. -/
structure TrackerState where
  position_history : List FaceObs
  landmark_history : List Landmarks

/-- FaceTracker.get_smoothed_position (face_tracker.py lines 140-194).
On a null observation, returns the last stored raw observation (or none)
without touching the state.  Otherwise pushes the observation, returns it raw
while fewer than two observations are stored, and else returns the
exponentially weighted average of the stored raw observations (eyes_center
additionally averaged over the landmark history with the weight suffix,
per np.average). -/
noncomputable def getSmoothedPosition (st : TrackerState)
    (faceData : Option FaceObs) : TrackerState × Option FaceObs :=
  match faceData with
  | none => (st, st.position_history.getLast?)
  | some fd =>
    let ph := pushCap SMOOTHING_WINDOW st.position_history fd
    let lh :=
      match fd.landmarks with
      | some lm => pushCap SMOOTHING_WINDOW st.landmark_history lm
      | none => st.landmark_history
    if ph.length < 2 then (⟨ph, lh⟩, some fd)
    else
      let ws := normWeights ph.length
      let eyes : Option (ℝ × ℝ) :=
        if 1 < lh.length then
          some (npAverage (ws.drop (ws.length - lh.length))
              (lh.map (fun lm => lm.eyes_center.1)),
            npAverage (ws.drop (ws.length - lh.length))
              (lh.map (fun lm => lm.eyes_center.2)))
        else fd.eyes_center
      (⟨ph, lh⟩, some
        { x_center := dotW ws (ph.map FaceObs.x_center)
          y_center := dotW ws (ph.map FaceObs.y_center)
          width := dotW ws (ph.map FaceObs.width)
          height := dotW ws (ph.map FaceObs.height)
          confidence := fd.confidence
          face_angle := dotW ws (ph.map FaceObs.face_angle)
          eyes_center := eyes
          landmarks := fd.landmarks })

/-- First observation of the C3 scenario: a face at x_center 0. -/
noncomputable def faceObsA : FaceObs := ⟨0, 0, 0, 0, 0, 0, none, none⟩

/-- Second observation of the C3 scenario: a face at x_center 1. -/
noncomputable def faceObsB : FaceObs := ⟨1, 0, 0, 0, 0, 0, none, none⟩

theorem getSmoothedPosition_stepA :
    getSmoothedPosition ⟨[], []⟩ (some faceObsA) = (⟨[faceObsA], []⟩, some faceObsA) := by
  simp [getSmoothedPosition, pushCap, faceObsA, SMOOTHING_WINDOW]

theorem getSmoothedPosition_stepB :
    getSmoothedPosition ⟨[faceObsA], []⟩ (some faceObsB) =
      (⟨[faceObsA, faceObsB], []⟩, some
        { x_center := dotW (normWeights 2) [(0 : ℝ), 1]
          y_center := dotW (normWeights 2) [(0 : ℝ), 0]
          width := dotW (normWeights 2) [(0 : ℝ), 0]
          height := dotW (normWeights 2) [(0 : ℝ), 0]
          confidence := 0
          face_angle := dotW (normWeights 2) [(0 : ℝ), 0]
          eyes_center := none
          landmarks := none }) := by
  simp [getSmoothedPosition, pushCap, faceObsA, faceObsB, SMOOTHING_WINDOW]

theorem dotW_normWeights_two :
    dotW (normWeights 2) [(0 : ℝ), 1] = 1 / (Real.exp (-2) + 1) := by
  have hr : List.range 2 = [0, 1] := rfl
  have hl0 : linspace (-2) 0 2 0 = -2 := by
    norm_num [linspace]
  have hl1 : linspace (-2) 0 2 1 = 0 := by
    norm_num [linspace]
  have hew : expWeights 2 = [Real.exp (-2), Real.exp 0] := by
    simp only [expWeights, hr, List.map_cons, List.map_nil, hl0, hl1]
  simp only [normWeights, hew, List.map_cons, List.map_nil, dotW,
    List.zipWith_cons_cons, List.zipWith_nil_right, List.sum_cons,
    List.sum_nil, List.sum_cons, Real.exp_zero]
  ring

theorem smoothed_ne_one : dotW (normWeights 2) [(0 : ℝ), 1] ≠ 1 := by
  rw [dotW_normWeights_two]
  have he := Real.exp_pos (-2)
  intro h
  rw [div_eq_one_iff_eq (by positivity)] at h
  linarith

/-- C3 counterexample: after the two observations x_center = 0 then
x_center = 1, the emitted smoothed output has
x_center = 1 / (exp(-2) + 1) < 1, but feeding a null observation next
returns the raw last observation (x_center = 1): the output on a null frame
is NOT the previously emitted smoothed value. -/
theorem getSmoothedPosition_null_not_previous_output :
    (getSmoothedPosition
        (getSmoothedPosition
          (getSmoothedPosition ⟨[], []⟩ (some faceObsA)).1 (some faceObsB)).1
        none).2 ≠
      (getSmoothedPosition
        (getSmoothedPosition ⟨[], []⟩ (some faceObsA)).1 (some faceObsB)).2 := by
  rw [getSmoothedPosition_stepA]
  rw [getSmoothedPosition_stepB]
  intro h
  simp only [getSmoothedPosition, List.getLast?] at h
  rw [Option.some_inj] at h
  have hx := congrArg FaceObs.x_center h
  simp only [faceObsB] at hx
  exact smoothed_ne_one hx.symm

/-- C3 (amended): a null observation leaves the tracker state unchanged and
returns the most recent RAW observation (none if no history) — not the
previously emitted smoothed value; the two coincide when exactly one real
observation has been fed (the raw observation is returned while the history
holds fewer than two entries), but differ in general for two or more
non-identical observations. -/
theorem getSmoothedPosition_null_spec :
    (∀ st : TrackerState,
      getSmoothedPosition st none = (st, st.position_history.getLast?))
    ∧ (∀ (st : TrackerState) (fd : FaceObs), st.position_history = [] →
        (getSmoothedPosition (getSmoothedPosition st (some fd)).1 none).2 =
          (getSmoothedPosition st (some fd)).2) := by
  constructor
  · intro st
    rfl
  · rintro ⟨ph, lh⟩ fd hempty
    simp only at hempty
    subst hempty
    simp [getSmoothedPosition, pushCap, SMOOTHING_WINDOW]

/-- Witness for C3 (amended): the single-observation case at a concrete
observation. -/
theorem getSmoothedPosition_null_spec_witness :
    (getSmoothedPosition
        (getSmoothedPosition ⟨[], []⟩ (some faceObsA)).1 none).2 =
      (getSmoothedPosition ⟨[], []⟩ (some faceObsA)).2 :=
  getSmoothedPosition_null_spec.2 ⟨[], []⟩ faceObsA rfl

/-! ## AudioAnalyzer voice activity detection (audio_analyzer.py, lines 100-198)

Both VAD paths share the same coalescing loop: walk sub-frames in time order,
open a segment when the speech flag rises, close it at the first non-speech
sub-frame, and close any segment left open at the end of the audio.  The
per-sub-frame speech verdicts are external (the webrtcvad classifier, or the
librosa RMS energy thresholding), so they are inputs here. -/

/-- The loop state of the coalescing loops (voice_segments, is_speaking,
segment_start). -/
structure VadState where
  segs : List (ℚ × ℚ × Bool)
  speaking : Bool
  segStart : ℚ

/-- One iteration of the coalescing loop on a (timestamp, is_speech) pair
(audio_analyzer.py lines 147-154 and 188-193). -/
def segStep (st : VadState) (p : ℚ × Bool) : VadState :=
  if p.2 ∧ ¬st.speaking then ⟨st.segs, true, p.1⟩
  else if ¬p.2 ∧ st.speaking then
    ⟨st.segs ++ [(st.segStart, p.1, true)], false, st.segStart⟩
  else st

/-- The full coalescing loop plus the final close of a segment left open
(audio_analyzer.py lines 157-158 and 195-196); tEnd is the end time of the
audio. -/
def buildSegs (ps : List (ℚ × Bool)) (tEnd : ℚ) : List (ℚ × ℚ × Bool) :=
  if (ps.foldl segStep ⟨[], false, 0⟩).speaking then
    (ps.foldl segStep ⟨[], false, 0⟩).segs ++
      [((ps.foldl segStep ⟨[], false, 0⟩).segStart, tEnd, true)]
  else (ps.foldl segStep ⟨[], false, 0⟩).segs

/-- Python range(0, stop, step) for positive step. -/
def pyRange (stop step : ℕ) : List ℕ :=
  (List.range ((stop + step - 1) / step)).map (· * step)

/-- AudioAnalyzer._webrtc_vad (audio_analyzer.py lines 117-160).  After the
resampling branch the sample rate is 16000, so frame_length =
int(16000 * frame_duration_ms / 1000) = 16 * ms samples; n is the length of
the int16 audio array; isSpeech i is the external webrtcvad verdict for the
sub-frame starting at sample i (false when the classifier raises, per the
try/except). -/
def webrtcVad (n ms : ℕ) (isSpeech : ℕ → Bool) : List (ℚ × ℚ × Bool) :=
  let fl := 16 * ms
  buildSegs ((pyRange (n - fl) fl).map (fun (i : ℕ) => ((i : ℚ) / 16000, isSpeech i)))
    ((n : ℚ) / 16000)

/-- AudioAnalyzer._energy_based_vad (audio_analyzer.py lines 162-198).
hop_length = int(sr * 0.01); the i-th RMS frame has timestamp
i * hop_length / sr; isSpeech is the per-RMS-frame list
energy_db > threshold_db computed externally by librosa; audioLen is
len(audio). -/
def energyBasedVad (sr audioLen : ℕ) (isSpeech : List Bool) : List (ℚ × ℚ × Bool) :=
  let hop := sr / 100
  buildSegs (isSpeech.enum.map (fun p => (((p.1 * hop : ℕ) : ℚ) / (sr : ℚ), p.2)))
    ((audioLen : ℚ) / (sr : ℚ))

/-- AudioAnalyzer.detect_voice_activity (audio_analyzer.py lines 100-115):
dispatch on webrtcvad availability. -/
def detectVoiceActivity (webrtcAvailable : Bool) (n16 ms : ℕ)
    (isSpeech16 : ℕ → Bool) (sr audioLen : ℕ) (rmsFlags : List Bool) :
    List (ℚ × ℚ × Bool) :=
  if webrtcAvailable then webrtcVad n16 ms isSpeech16
  else energyBasedVad sr audioLen rmsFlags

/-- Well-formedness of a segment list: every end time is at least its start
time, adjacent-or-later segments do not overlap (each end is at most every
later start), and the list is sorted by start time. -/
def SegsOk (l : List (ℚ × ℚ × Bool)) : Prop :=
  (∀ s ∈ l, s.1 ≤ s.2.1) ∧ l.Pairwise (fun u v => u.2.1 ≤ v.1) ∧
    l.Pairwise (fun u v => u.1 ≤ v.1)

theorem segsOk_of (l : List (ℚ × ℚ × Bool)) (h1 : ∀ s ∈ l, s.1 ≤ s.2.1)
    (h2 : l.Pairwise (fun u v => u.2.1 ≤ v.1)) : SegsOk l :=
  ⟨h1, h2, h2.imp_of_mem (fun ha _ hr => le_trans (h1 _ ha) hr)⟩

/-- Invariant of the coalescing loop relative to an upper bound t on all
timestamps seen so far. -/
def VadInv (st : VadState) (t : ℚ) : Prop :=
  (∀ s ∈ st.segs, s.1 ≤ s.2.1) ∧
    st.segs.Pairwise (fun u v => u.2.1 ≤ v.1) ∧
    (∀ s ∈ st.segs, s.2.1 ≤ t) ∧
    (st.speaking = true → st.segStart ≤ t ∧ ∀ s ∈ st.segs, s.2.1 ≤ st.segStart)

theorem VadInv_mono {st : VadState} {t t' : ℚ} (h : VadInv st t) (htt : t ≤ t') :
    VadInv st t' := by
  obtain ⟨h1, h2, h3, h4⟩ := h
  exact ⟨h1, h2, fun s hs => le_trans (h3 s hs) htt,
    fun hsp => ⟨le_trans (h4 hsp).1 htt, (h4 hsp).2⟩⟩

theorem segStep_inv {st : VadState} {p : ℚ × Bool} (h : VadInv st p.1) :
    VadInv (segStep st p) p.1 := by
  obtain ⟨h1, h2, h3, h4⟩ := h
  unfold segStep
  split_ifs with c1 c2
  · exact ⟨h1, h2, h3, fun _ => ⟨le_refl _, h3⟩⟩
  · have hsp := h4 c2.2
    refine ⟨?_, ?_, ?_, by simp⟩
    · intro s hs
      rcases List.mem_append.mp hs with hs | hs
      · exact h1 s hs
      · simp only [List.mem_singleton] at hs
        subst hs
        exact hsp.1
    · rw [List.pairwise_append]
      refine ⟨h2, List.pairwise_singleton _ _, ?_⟩
      intro u hu v hv
      simp only [List.mem_singleton] at hv
      subst hv
      exact hsp.2 u hu
    · intro s hs
      rcases List.mem_append.mp hs with hs | hs
      · exact h3 s hs
      · simp only [List.mem_singleton] at hs
        subst hs
        exact le_refl _
  · exact ⟨h1, h2, h3, h4⟩

theorem foldl_segStep_inv (T : ℚ) :
    ∀ (ps : List (ℚ × Bool)) (st : VadState) (t : ℚ), VadInv st t →
      (∀ p ∈ ps, t ≤ p.1) → (ps.map Prod.fst).Pairwise (· ≤ ·) →
      (∀ p ∈ ps, p.1 ≤ T) → t ≤ T → VadInv (ps.foldl segStep st) T := by
  intro ps
  induction ps with
  | nil => intro st t h _ _ _ htT; exact VadInv_mono h htT
  | cons p ps ih =>
    intro st t h hlb hpw hub htT
    have h1 : VadInv st p.1 := VadInv_mono h (hlb p (by simp))
    have h2 : VadInv (segStep st p) p.1 := segStep_inv h1
    simp only [List.map_cons, List.pairwise_cons] at hpw
    refine ih (segStep st p) p.1 h2 ?_ hpw.2 (fun q hq => hub q (by simp [hq]))
      (hub p (by simp))
    intro q hq
    exact hpw.1 q.1 (List.mem_map.mpr ⟨q, hq, rfl⟩)

theorem buildSegs_ok (ps : List (ℚ × Bool)) (tEnd : ℚ)
    (hpw : (ps.map Prod.fst).Pairwise (· ≤ ·)) (hub : ∀ p ∈ ps, p.1 ≤ tEnd) :
    SegsOk (buildSegs ps tEnd) := by
  cases ps with
  | nil =>
    simp [buildSegs, SegsOk]
  | cons p ps =>
    have hinv0 : VadInv ⟨[], false, 0⟩ p.1 := by
      refine ⟨by simp, by simp, by simp, ?_⟩
      intro hc
      simp at hc
    have hinv := foldl_segStep_inv tEnd (p :: ps) ⟨[], false, 0⟩ p.1 hinv0
      ?_ hpw hub (hub p (by simp))
    · obtain ⟨h1, h2, h3, h4⟩ := hinv
      unfold buildSegs
      split_ifs with hsp
      · obtain ⟨hst, hends⟩ := h4 hsp
        refine segsOk_of _ ?_ ?_
        · intro s hs
          rcases List.mem_append.mp hs with hs | hs
          · exact h1 s hs
          · simp only [List.mem_singleton] at hs
            subst hs
            exact hst
        · rw [List.pairwise_append]
          refine ⟨h2, List.pairwise_singleton _ _, ?_⟩
          intro u hu v hv
          simp only [List.mem_singleton] at hv
          subst hv
          exact hends u hu
      · exact segsOk_of _ h1 h2
    · intro q hq
      simp only [List.map_cons, List.pairwise_cons] at hpw
      rcases List.mem_cons.mp hq with rfl | hq
      · exact le_refl _
      · exact hpw.1 q.1 (List.mem_map.mpr ⟨q, hq, rfl⟩)

theorem qdiv_le_qdiv (a b : ℕ) (c : ℚ) (hab : a ≤ b) (hc : 0 ≤ c) :
    (a : ℚ) / c ≤ (b : ℚ) / c := by
  rcases eq_or_lt_of_le hc with rfl | hc
  · simp
  · exact (div_le_div_iff_of_pos_right hc).mpr (by exact_mod_cast hab)

theorem pyRange_lt (stop step : ℕ) (hstep : 0 < step) :
    ∀ i ∈ pyRange stop step, i < stop := by
  intro i hi
  simp only [pyRange, List.mem_map, List.mem_range] at hi
  obtain ⟨k, hk, rfl⟩ := hi
  have hm : ((stop + step - 1) / step) * step ≤ stop + step - 1 :=
    Nat.div_mul_le_self _ _
  have hmul : (k + 1) * step ≤ ((stop + step - 1) / step) * step :=
    Nat.mul_le_mul_right step hk
  rw [Nat.succ_mul] at hmul
  omega

theorem fst_ge_of_mem_enumFrom {α : Type} :
    ∀ (l : List α) (n : ℕ) (v : ℕ × α), v ∈ List.enumFrom n l → n ≤ v.1 := by
  intro l
  induction l with
  | nil => intro n v hv; simp [List.enumFrom] at hv
  | cons x l ih =>
    intro n v hv
    rcases List.mem_cons.mp hv with rfl | hv
    · exact le_refl _
    · exact le_trans (Nat.le_succ n) (ih (n + 1) v hv)

theorem fst_lt_of_mem_enumFrom {α : Type} :
    ∀ (l : List α) (n : ℕ) (v : ℕ × α), v ∈ List.enumFrom n l →
      v.1 < n + l.length := by
  intro l
  induction l with
  | nil => intro n v hv; simp [List.enumFrom] at hv
  | cons x l ih =>
    intro n v hv
    rcases List.mem_cons.mp hv with rfl | hv
    · simp
    · have := ih (n + 1) v hv
      simp only [List.length_cons]
      omega

theorem pairwise_lt_enumFrom {α : Type} :
    ∀ (l : List α) (n : ℕ),
      (List.enumFrom n l).Pairwise (fun u v => u.1 < v.1) := by
  intro l
  induction l with
  | nil => intro n; simp [List.enumFrom]
  | cons x l ih =>
    intro n
    rw [show List.enumFrom n (x :: l) = (n, x) :: List.enumFrom (n + 1) l from rfl,
      List.pairwise_cons]
    refine ⟨fun v hv => ?_, ih (n + 1)⟩
    exact lt_of_lt_of_le (Nat.lt_succ_self n) (fst_ge_of_mem_enumFrom l (n + 1) v hv)

/-- C6: on both VAD paths — the webrtcvad sub-frame classifier and the
energy-threshold fallback — and hence through detect_voice_activity, the
returned voice-activity segments have end >= start, are pairwise
non-overlapping (each segment ends no later than every later segment starts),
and are sorted by start time; this holds for every sub-frame verdict
sequence.  The frame duration must be positive (Python range would raise on
step 0) and the RMS frame count is the librosa one (last frame starts within
the audio). -/
theorem detect_voice_activity_sorted :
    ∀ (webrtcAvailable : Bool) (n16 ms : ℕ) (isSpeech16 : ℕ → Bool)
      (sr audioLen : ℕ) (rmsFlags : List Bool),
      0 < ms → (rmsFlags.length - 1) * (sr / 100) ≤ audioLen →
      SegsOk (detectVoiceActivity webrtcAvailable n16 ms isSpeech16 sr audioLen
        rmsFlags) := by
  intro wa n16 ms isSp sr audioLen rmsFlags hms hflags
  unfold detectVoiceActivity
  split_ifs with hwa
  · -- webrtcvad path
    unfold webrtcVad
    refine buildSegs_ok _ _ ?_ ?_
    · rw [List.map_map, pyRange, List.map_map, List.pairwise_map]
      refine (List.pairwise_lt_range _).imp ?_
      intro k k' hkk
      simp only [Function.comp]
      exact qdiv_le_qdiv _ _ _ (Nat.mul_le_mul_right _ (le_of_lt hkk)) (by norm_num)
    · intro p hp
      simp only [List.mem_map] at hp
      obtain ⟨i, hi, rfl⟩ := hp
      have hlt := pyRange_lt _ _ (by omega) i hi
      exact qdiv_le_qdiv _ _ _ (by omega) (by norm_num)
  · -- energy-threshold path
    unfold energyBasedVad
    refine buildSegs_ok _ _ ?_ ?_
    · rw [List.map_map, List.pairwise_map]
      refine (pairwise_lt_enumFrom rmsFlags 0).imp ?_
      intro u v huv
      simp only [Function.comp]
      exact qdiv_le_qdiv _ _ _ (Nat.mul_le_mul_right _ (le_of_lt huv))
        (by positivity)
    · intro p hp
      simp only [List.mem_map] at hp
      obtain ⟨v, hv, rfl⟩ := hp
      have hlt := fst_lt_of_mem_enumFrom rmsFlags 0 v hv
      have : v.1 * (sr / 100) ≤ audioLen := by
        have h1 : v.1 ≤ rmsFlags.length - 1 := by omega
        calc v.1 * (sr / 100) ≤ (rmsFlags.length - 1) * (sr / 100) :=
              Nat.mul_le_mul_right _ h1
          _ ≤ audioLen := hflags
      exact qdiv_le_qdiv _ _ _ this (by positivity)

/-- Witness for C6: the energy fallback on three concrete sub-frame flags of
one second of 16 kHz audio. -/
theorem detect_voice_activity_sorted_witness :
    SegsOk (detectVoiceActivity false 0 30 (fun _ => false) 16000 16000
      [true, false, true]) :=
  detect_voice_activity_sorted false 0 30 (fun _ => false) 16000 16000
    [true, false, true] (by decide) (by decide)

/-! ## AudioAnalyzer diarization and per-frame arrays (audio_analyzer.py,
lines 200-329) -/

/-- The result dict of diarize_speakers. -/
structure DiarizationResult where
  timeline : List (ℚ × ℚ × String)
  num_speakers : ℕ
  deriving DecidableEq, Repr

/-- AudioAnalyzer.diarize_speakers (audio_analyzer.py lines 200-245).  The
pyannote pipeline is external: none models a pipeline that was never loaded
(line 213), some (Except.error e) a pipeline raising during inference
(line 240), some (Except.ok turns) a successful run with its
(start, end, speaker) turns.  When the pipeline is unavailable the audio is
reloaded and detect_voice_activity is recomputed; its parameters are passed
through. -/
def diarizeSpeakers (pipeline : Option (Except String (List (ℚ × ℚ × String))))
    (webrtcAvailable : Bool) (n16 ms : ℕ) (isSpeech16 : ℕ → Bool)
    (sr audioLen : ℕ) (rmsFlags : List Bool) : DiarizationResult :=
  match pipeline with
  | none =>
    ⟨(detectVoiceActivity webrtcAvailable n16 ms isSpeech16 sr audioLen
        rmsFlags).map (fun s => (s.1, s.2.1, "SPEAKER_00")), 1⟩
  | some (Except.error _) => ⟨[], 0⟩
  | some (Except.ok turns) =>
    ⟨turns, (turns.map (fun t => t.2.2)).dedup.length⟩

/-- C5: diarization failures never propagate.  If the pipeline raises during
inference the result is an empty timeline with zero speakers; if the pipeline
was never loaded the result is a single implicit speaker (num_speakers = 1)
whose timeline intervals are exactly the detected voice-activity segments,
every turn labelled SPEAKER_00. -/
theorem diarize_speakers_failure_semantics :
    ∀ (webrtcAvailable : Bool) (n16 ms : ℕ) (isSpeech16 : ℕ → Bool)
      (sr audioLen : ℕ) (rmsFlags : List Bool) (e : String),
      diarizeSpeakers (some (Except.error e)) webrtcAvailable n16 ms isSpeech16
          sr audioLen rmsFlags = ⟨[], 0⟩ ∧
        (diarizeSpeakers none webrtcAvailable n16 ms isSpeech16 sr audioLen
            rmsFlags).num_speakers = 1 ∧
        (diarizeSpeakers none webrtcAvailable n16 ms isSpeech16 sr audioLen
            rmsFlags).timeline.map (fun t => (t.1, t.2.1)) =
          (detectVoiceActivity webrtcAvailable n16 ms isSpeech16 sr audioLen
            rmsFlags).map (fun s => (s.1, s.2.1)) ∧
        ∀ t ∈ (diarizeSpeakers none webrtcAvailable n16 ms isSpeech16 sr
            audioLen rmsFlags).timeline, t.2.2 = "SPEAKER_00" := by
  intro wa n16 ms isSp sr audioLen rmsFlags e
  refine ⟨rfl, rfl, ?_, ?_⟩
  · simp [diarizeSpeakers, List.map_map]
  · intro t ht
    simp only [diarizeSpeakers, List.mem_map] at ht
    obtain ⟨s, -, rfl⟩ := ht
    rfl

/-! ## AudioAnalyzer per-frame arrays and preprocess_video -/

/-- config.py line 17: OUTPUT_FPS = 30. -/
def OUTPUT_FPS : ℕ := 30

/-- AudioAnalyzer.get_audio_energy_per_frame (audio_analyzer.py
lines 247-277): RMS energy of the samples_per_frame-sample window of each
output frame; samples_per_frame = int(sr / fps), and the number of frames is
int(len(audio) / samples_per_frame). -/
noncomputable def getAudioEnergyPerFrame (audio : List ℝ) (sampleRate fps : ℕ) :
    List ℝ :=
  (List.range (audio.length / (sampleRate / fps))).map (fun i =>
    let frameAudio := (audio.drop (i * (sampleRate / fps))).take (sampleRate / fps)
    if 0 < frameAudio.length then
      Real.sqrt ((frameAudio.map (fun x => x ^ 2)).sum / frameAudio.length)
    else 0)

/-- AudioAnalyzer.get_speaker_per_frame (audio_analyzer.py lines 305-329):
start from total_frames entries of none, then for each diarization turn label
the frames of its clamped [start_frame, end_frame) range. -/
def getSpeakerPerFrame (segments : List (ℚ × ℚ × String)) (fps : ℕ)
    (totalFrames : ℕ) : List (Option String) :=
  segments.foldl (fun acc seg =>
    acc.mapIdx (fun i v =>
      if max 0 (min (intQ (seg.1 * fps)) ((totalFrames : ℤ) - 1)) ≤ (i : ℤ) ∧
          (i : ℤ) < max 0 (min (intQ (seg.2.1 * fps)) (totalFrames : ℤ)) then
        some seg.2.2
      else v))
    (List.replicate totalFrames none)

/-- SmartCropper.preprocess_video (smart_cropper.py lines 55-128), restricted
to the two per-frame arrays it stores: the audio-energy array (from the
extracted audio, truncated to test_duration) and the speaker-label timeline
(from the diarization timeline and the cv2-reported frame count, capped by
test_duration at the video frame rate). -/
noncomputable def preprocessVideo (audio : List ℝ) (sr : ℕ)
    (totalFramesRaw : ℕ) (videoFps : ℚ) (testDuration : Option ℚ)
    (diarTimeline : List (ℚ × ℚ × String)) : List ℝ × List (Option String) :=
  let audio' :=
    match testDuration with
    | some d =>
      if (intQ (d * sr)).toNat < audio.length then audio.take (intQ (d * sr)).toNat
      else audio
    | none => audio
  let totalFrames :=
    match testDuration with
    | some d => min totalFramesRaw (intQ (d * videoFps)).toNat
    | none => totalFramesRaw
  (getAudioEnergyPerFrame audio' sr OUTPUT_FPS,
    getSpeakerPerFrame diarTimeline OUTPUT_FPS totalFrames)

theorem getSpeakerPerFrame_length (segments : List (ℚ × ℚ × String))
    (fps totalFrames : ℕ) :
    (getSpeakerPerFrame segments fps totalFrames).length = totalFrames := by
  suffices h : ∀ (segs : List (ℚ × ℚ × String)) (acc : List (Option String)),
      (segs.foldl (fun acc seg =>
        acc.mapIdx (fun i v =>
          if max 0 (min (intQ (seg.1 * fps)) ((totalFrames : ℤ) - 1)) ≤ (i : ℤ) ∧
              (i : ℤ) < max 0 (min (intQ (seg.2.1 * fps)) (totalFrames : ℤ)) then
            some seg.2.2
          else v)) acc).length = acc.length by
    unfold getSpeakerPerFrame
    rw [h, List.length_replicate]
  intro segs
  induction segs with
  | nil => intro acc; rfl
  | cons s segs ih =>
    intro acc
    rw [List.foldl_cons, ih]
    simp

theorem getAudioEnergyPerFrame_length (audio : List ℝ) (sr fps : ℕ) :
    (getAudioEnergyPerFrame audio sr fps).length = audio.length / (sr / fps) := by
  simp [getAudioEnergyPerFrame]

/-- C4 counterexample: one second of 16 kHz audio on a 25 fps video of 25
frames.  The audio-energy array has int(16000 / int(16000 / 30)) = 30
entries (indexed by OUTPUT_FPS = 30 frames of audio), while the
speaker-label timeline has exactly total_frames = 25 entries (the source
video's frame count): the two per-frame arrays preprocess_video stores are
not parallel arrays of equal length. -/
theorem preprocessVideo_none_eq (audio : List ℝ) (sr totalFramesRaw : ℕ)
    (videoFps : ℚ) (tl : List (ℚ × ℚ × String)) :
    preprocessVideo audio sr totalFramesRaw videoFps none tl =
      (getAudioEnergyPerFrame audio sr OUTPUT_FPS,
        getSpeakerPerFrame tl OUTPUT_FPS totalFramesRaw) := rfl

theorem preprocess_arrays_not_parallel :
    ((preprocessVideo (List.replicate 16000 (0 : ℝ)) 16000 25 25 none []).1).length ≠
      ((preprocessVideo (List.replicate 16000 (0 : ℝ)) 16000 25 25 none []).2).length := by
  rw [preprocessVideo_none_eq]
  simp only [getAudioEnergyPerFrame_length, getSpeakerPerFrame_length,
    List.length_replicate]
  decide

/-- C4 (amended): the speaker-label timeline always has exactly total_frames
entries (the cv2-reported frame count of the video, capped by test_duration),
while the audio-energy array has int(len(audio) / int(sr / fps)) entries
derived from the audio length at OUTPUT_FPS; the code does not enforce that
these two counts coincide, so the arrays are parallel only when the video
frame count equals the audio-derived frame count (e.g. a 30 fps video of
matching duration). -/
theorem preprocess_array_lengths :
    (∀ (segments : List (ℚ × ℚ × String)) (fps totalFrames : ℕ),
      (getSpeakerPerFrame segments fps totalFrames).length = totalFrames)
    ∧ (∀ (audio : List ℝ) (sr fps : ℕ),
      (getAudioEnergyPerFrame audio sr fps).length = audio.length / (sr / fps))
    ∧ (∀ (audio : List ℝ) (sr totalFramesRaw : ℕ) (videoFps : ℚ)
        (tl : List (ℚ × ℚ × String)),
      ((preprocessVideo audio sr totalFramesRaw videoFps none tl).2).length =
          totalFramesRaw ∧
        ((preprocessVideo audio sr totalFramesRaw videoFps none tl).1).length =
          audio.length / (sr / OUTPUT_FPS)) := by
  refine ⟨getSpeakerPerFrame_length, getAudioEnergyPerFrame_length, ?_⟩
  intro audio sr totalFramesRaw videoFps tl
  exact ⟨getSpeakerPerFrame_length tl OUTPUT_FPS totalFramesRaw,
    getAudioEnergyPerFrame_length audio sr OUTPUT_FPS⟩

/-! ## LipSyncDetector (lip_sync_detector.py) -/

/-- np.mean of a list (0 for the empty list, as ℝ division by zero is 0). -/
noncomputable def meanR (l : List ℝ) : ℝ := l.sum / l.length

/-- The per-element mean-squared deviation np.mean((x - np.mean(x))**2). -/
noncomputable def varR (l : List ℝ) : ℝ :=
  meanR (l.map (fun x => (x - meanR l) ^ 2))

/-- np.std of a list (population standard deviation). -/
noncomputable def stdR (l : List ℝ) : ℝ := Real.sqrt (varR l)

/-- The common truncation length min_len of correlate_with_audio
(lip_sync_detector.py line 171). -/
def windowLen (m a : List ℝ) : ℕ := min m.length a.length

/-- The mean-subtracted mouth window series mouth_norm
(lip_sync_detector.py lines 172, 176). -/
noncomputable def mouthNormOf (m a : List ℝ) : List ℝ :=
  (m.take (windowLen m a)).map (fun x => x - meanR (m.take (windowLen m a)))

/-- The mean-subtracted audio window series audio_norm
(lip_sync_detector.py lines 173, 177). -/
noncomputable def audioNormOf (m a : List ℝ) : List ℝ :=
  (a.take (windowLen m a)).map (fun x => x - meanR (a.take (windowLen m a)))

/-- LipSyncDetector.correlate_with_audio (lip_sync_detector.py,
lines 156-196): 0 for windows shorter than 2 and for (near-)zero standard
deviations (guard threshold 1e-10); otherwise the maximum absolute
cross-correlation of the two z-normalized series divided by min_len.
scipy.signal.correlate in valid mode on two equal-length series is the single
full dot product, so the max over lags is its absolute value. -/
noncomputable def correlateWithAudio (mouthFeatures audioEnergy : List ℝ) : ℝ :=
  if mouthFeatures.length < 2 ∨ audioEnergy.length < 2 then 0
  else if stdR (mouthNormOf mouthFeatures audioEnergy) < 1 / 10 ^ 10 ∨
      stdR (audioNormOf mouthFeatures audioEnergy) < 1 / 10 ^ 10 then 0
  else
    |dotW
        ((mouthNormOf mouthFeatures audioEnergy).map
          (fun x => x / stdR (mouthNormOf mouthFeatures audioEnergy)))
        ((audioNormOf mouthFeatures audioEnergy).map
          (fun x => x / stdR (audioNormOf mouthFeatures audioEnergy)))| /
      (windowLen mouthFeatures audioEnergy)

/-- LipSyncDetector.calculate_mouth_opening (lip_sync_detector.py,
lines 42-81): vertical inner-lip distance (landmarks 13-14) normalized by
mouth width (landmarks 61-291); 0 when no landmarks (the except branch for
malformed landmark data is likewise the none case) or zero mouth width.
Landmarks are the external per-face point set, given as index to 2D point. -/
noncomputable def calculateMouthOpening (landmarks : Option (ℕ → ℝ × ℝ)) : ℝ :=
  match landmarks with
  | none => 0
  | some p =>
    let verticalDistance :=
      Real.sqrt (((p 13).1 - (p 14).1) ^ 2 + ((p 13).2 - (p 14).2) ^ 2)
    let mouthWidth :=
      Real.sqrt (((p 61).1 - (p 291).1) ^ 2 + ((p 61).2 - (p 291).2) ^ 2)
    if mouthWidth > 0 then verticalDistance / mouthWidth else 0

/-- The LipSyncDetector state: window_size (default 10) and the two ring
buffers of (mouth-opening, audio-energy) samples, both deques with
maxlen = window_size. -/
structure LipSyncState where
  windowSize : ℕ
  mouth_history : List ℝ
  audio_history : List ℝ

/-- The result dict of is_speaking. -/
structure SpeakingResult where
  is_speaking : Prop
  confidence : ℝ
  mouth_opening : ℝ
  correlation : ℝ

open Classical in
/-- LipSyncDetector.is_speaking (lip_sync_detector.py lines 198-251):
push the frame's mouth opening and audio energy, report confidence 0 until
half the window has accumulated, else correlate the two windows; the speaking
verdict is the conjunction mouth open (> 0.15) and audio present (> half the
window's mean energy) and correlated (> threshold 0.3), and the confidence is
the correlation when speaking, else 0. -/
noncomputable def isSpeaking (st : LipSyncState)
    (faceLandmarks : Option (ℕ → ℝ × ℝ)) (audioEnergy : ℝ)
    (threshold : ℝ := 3 / 10) : LipSyncState × SpeakingResult :=
  let mouthOpening := calculateMouthOpening faceLandmarks
  let mh := pushCap st.windowSize st.mouth_history mouthOpening
  let ah := pushCap st.windowSize st.audio_history audioEnergy
  if mh.length < st.windowSize / 2 then
    (⟨st.windowSize, mh, ah⟩, ⟨False, 0, mouthOpening, 0⟩)
  else
    (⟨st.windowSize, mh, ah⟩,
      ⟨calculateMouthOpening faceLandmarks > 3 / 20 ∧
          audioEnergy > meanR ah * (1 / 2) ∧
          correlateWithAudio mh ah > threshold,
        if calculateMouthOpening faceLandmarks > 3 / 20 ∧
            audioEnergy > meanR ah * (1 / 2) ∧
            correlateWithAudio mh ah > threshold then
          correlateWithAudio mh ah
        else 0,
        mouthOpening, correlateWithAudio mh ah⟩)

theorem dotW_self_eq_sum_sq : ∀ l : List ℝ, dotW l l = (l.map (fun x => x ^ 2)).sum := by
  intro l
  induction l with
  | nil => rfl
  | cons x l ih =>
    simp only [dotW, List.zipWith_cons_cons, List.sum_cons, List.map_cons] at *
    rw [ih.symm]
    ring_nf

theorem sum_sq_nonneg (l : List ℝ) : 0 ≤ (l.map (fun x => x ^ 2)).sum := by
  refine List.sum_nonneg ?_
  intro x hx
  simp only [List.mem_map] at hx
  obtain ⟨y, -, rfl⟩ := hx
  exact sq_nonneg y

theorem dotW_self_nonneg (l : List ℝ) : 0 ≤ dotW l l := by
  rw [dotW_self_eq_sum_sq]
  exact sum_sq_nonneg l

theorem dotW_sq_le : ∀ u v : List ℝ, (dotW u v) ^ 2 ≤ dotW u u * dotW v v := by
  intro u
  induction u with
  | nil => intro v; simp [dotW]
  | cons x u ih =>
    intro v
    cases v with
    | nil =>
      simp [dotW]
    | cons y v =>
      have hA : 0 ≤ dotW u u := dotW_self_nonneg u
      have hB : 0 ≤ dotW v v := dotW_self_nonneg v
      have hIH := ih v
      have hD : 0 ≤ dotW u u * dotW v v - (dotW u v) ^ 2 := by linarith
      simp only [dotW, List.zipWith_cons_cons, List.sum_cons] at *
      rcases eq_or_lt_of_le hB with hB0 | hBpos
      · have hS2 : (List.zipWith (· * ·) u v).sum ^ 2 = 0 :=
          le_antisymm (by nlinarith) (sq_nonneg _)
        have hS : (List.zipWith (· * ·) u v).sum = 0 :=
          (pow_eq_zero_iff (by norm_num)).mp hS2
        rw [hS, ← hB0]
        nlinarith [mul_nonneg hA (sq_nonneg y)]
      · nlinarith [sq_nonneg (x * (List.zipWith (· * ·) v v).sum -
            y * (List.zipWith (· * ·) u v).sum),
          mul_nonneg (sq_nonneg y) hD, mul_nonneg hB hD]

theorem dotW_div : ∀ (l k : List ℝ) (c d : ℝ),
    dotW (l.map (fun x => x / c)) (k.map (fun x => x / d)) = dotW l k / (c * d) := by
  intro l
  induction l with
  | nil => intro k c d; simp [dotW]
  | cons x l ih =>
    intro k c d
    cases k with
    | nil => simp [dotW]
    | cons y k =>
      simp only [List.map_cons, dotW, List.zipWith_cons_cons, List.sum_cons]
      have ih' := ih k c d
      simp only [dotW] at ih'
      rw [ih', div_mul_div_comm, add_div]

theorem sum_map_sub (l : List ℝ) (c : ℝ) :
    (l.map (fun x => x - c)).sum = l.sum - l.length * c := by
  induction l with
  | nil => simp
  | cons x l ih =>
    simp only [List.map_cons, List.sum_cons, List.length_cons, ih]
    push_cast
    ring

theorem meanR_center (l : List ℝ) (hl : l ≠ []) :
    meanR (l.map (fun x => x - meanR l)) = 0 := by
  have hlen : (l.length : ℝ) ≠ 0 :=
    Nat.cast_ne_zero.mpr (fun h => hl (List.length_eq_zero.mp h))
  unfold meanR
  rw [sum_map_sub, List.length_map]
  field_simp

theorem sum_sq_eq_len_mul_varR (w : List ℝ) (h0 : meanR w = 0) (hw : w ≠ []) :
    (w.map (fun x => x ^ 2)).sum = w.length * varR w := by
  have hlen : (w.length : ℝ) ≠ 0 :=
    Nat.cast_ne_zero.mpr (fun h => hw (List.length_eq_zero.mp h))
  unfold varR
  rw [h0]
  simp only [sub_zero]
  unfold meanR
  rw [List.length_map]
  field_simp

theorem znorm_dot_self (w : List ℝ) (h0 : meanR w = 0) (hw : w ≠ [])
    (hv : 0 < varR w) :
    dotW (w.map (fun x => x / stdR w)) (w.map (fun x => x / stdR w)) =
      (w.length : ℝ) := by
  rw [dotW_div, dotW_self_eq_sum_sq, sum_sq_eq_len_mul_varR w h0 hw]
  rw [show stdR w * stdR w = varR w from Real.mul_self_sqrt (le_of_lt hv)]
  field_simp

theorem mouthNormOf_length (m a : List ℝ) :
    (mouthNormOf m a).length = windowLen m a := by
  simp only [mouthNormOf, List.length_map, List.length_take, windowLen]
  omega

theorem audioNormOf_length (m a : List ℝ) :
    (audioNormOf m a).length = windowLen m a := by
  simp only [audioNormOf, List.length_map, List.length_take, windowLen]
  omega

theorem correlateWithAudio_bounds (m a : List ℝ) :
    0 ≤ correlateWithAudio m a ∧ correlateWithAudio m a ≤ 1 := by
  unfold correlateWithAudio
  split_ifs with h1 h2
  · norm_num
  · norm_num
  · push_neg at h1 h2
    have hn2 : 2 ≤ windowLen m a := by
      unfold windowLen
      omega
    have hnw : (mouthNormOf m a).length = windowLen m a := mouthNormOf_length m a
    have hnu : (audioNormOf m a).length = windowLen m a := audioNormOf_length m a
    have hwne : mouthNormOf m a ≠ [] := by
      intro h
      rw [h] at hnw
      simp only [List.length_nil] at hnw
      omega
    have hune : audioNormOf m a ≠ [] := by
      intro h
      rw [h] at hnu
      simp only [List.length_nil] at hnu
      omega
    have hσw : 0 < stdR (mouthNormOf m a) :=
      lt_of_lt_of_le (by norm_num) h2.1
    have hσu : 0 < stdR (audioNormOf m a) :=
      lt_of_lt_of_le (by norm_num) h2.2
    have hvw : 0 < varR (mouthNormOf m a) := Real.sqrt_pos.mp hσw
    have hvu : 0 < varR (audioNormOf m a) := Real.sqrt_pos.mp hσu
    have h0w : meanR (mouthNormOf m a) = 0 := by
      unfold mouthNormOf
      exact meanR_center _ (by
        intro h
        have := congrArg List.length h
        simp only [List.length_take, List.length_nil, windowLen] at this
        have hn2' : 2 ≤ min m.length a.length := hn2
        omega)
    have h0u : meanR (audioNormOf m a) = 0 := by
      unfold audioNormOf
      exact meanR_center _ (by
        intro h
        have := congrArg List.length h
        simp only [List.length_take, List.length_nil, windowLen] at this
        have hn2' : 2 ≤ min m.length a.length := hn2
        omega)
    have hww := znorm_dot_self (mouthNormOf m a) h0w hwne hvw
    have huu := znorm_dot_self (audioNormOf m a) h0u hune hvu
    have hcs := dotW_sq_le
      ((mouthNormOf m a).map (fun x => x / stdR (mouthNormOf m a)))
      ((audioNormOf m a).map (fun x => x / stdR (audioNormOf m a)))
    rw [hww, huu, hnw, hnu] at hcs
    have hnpos : (0 : ℝ) < (windowLen m a : ℝ) := by
      exact_mod_cast lt_of_lt_of_le (by norm_num) hn2
    constructor
    · positivity
    · rw [div_le_one hnpos]
      rw [show |dotW ((mouthNormOf m a).map (fun x => x / stdR (mouthNormOf m a)))
          ((audioNormOf m a).map (fun x => x / stdR (audioNormOf m a)))| =
          Real.sqrt ((dotW ((mouthNormOf m a).map
              (fun x => x / stdR (mouthNormOf m a)))
            ((audioNormOf m a).map (fun x => x / stdR (audioNormOf m a)))) ^ 2)
          from (Real.sqrt_sq_eq_abs _).symm]
      calc Real.sqrt ((dotW ((mouthNormOf m a).map
              (fun x => x / stdR (mouthNormOf m a)))
            ((audioNormOf m a).map (fun x => x / stdR (audioNormOf m a)))) ^ 2) ≤
          Real.sqrt ((windowLen m a : ℝ) * (windowLen m a : ℝ)) :=
            Real.sqrt_le_sqrt hcs
        _ = (windowLen m a : ℝ) := Real.sqrt_mul_self (le_of_lt hnpos)

/-- C7: the confidence reported by is_speaking always lies in [0, 1]: it is
either 0 (insufficient history, or the three-way speaking test fails) or the
windows' correlation value, which is the maximum absolute cross-correlation
of the z-normalized series divided by the window length and hence bounded by
1 (Cauchy-Schwarz). -/
theorem is_speaking_confidence_in_unit :
    ∀ (st : LipSyncState) (lm : Option (ℕ → ℝ × ℝ)) (e : ℝ),
      0 ≤ (isSpeaking st lm e).2.confidence ∧
        (isSpeaking st lm e).2.confidence ≤ 1 ∧
        ((isSpeaking st lm e).2.confidence = 0 ∨
          (isSpeaking st lm e).2.confidence =
            correlateWithAudio
              (pushCap st.windowSize st.mouth_history (calculateMouthOpening lm))
              (pushCap st.windowSize st.audio_history e)) := by
  intro st lm e
  simp only [isSpeaking]
  split_ifs with h1 h2
  · exact ⟨le_refl 0, by norm_num, Or.inl rfl⟩
  · obtain ⟨hc0, hc1⟩ := correlateWithAudio_bounds
      (pushCap st.windowSize st.mouth_history (calculateMouthOpening lm))
      (pushCap st.windowSize st.audio_history e)
    exact ⟨hc0, hc1, Or.inr rfl⟩
  · exact ⟨le_refl 0, by norm_num, Or.inl rfl⟩

/-- C8: correlate_with_audio defines the correlation as exactly 0 whenever
either window's standard deviation is below the 1e-10 guard, and the
z-normalizing divisions are only performed when both standard deviations are
at or above the guard, in which case both are strictly positive — no
division by zero can occur. -/
theorem correlate_degenerate_guard :
    ∀ m a : List ℝ,
      (stdR (mouthNormOf m a) < 1 / 10 ^ 10 ∨
          stdR (audioNormOf m a) < 1 / 10 ^ 10 →
        correlateWithAudio m a = 0)
      ∧ (¬(stdR (mouthNormOf m a) < 1 / 10 ^ 10 ∨
            stdR (audioNormOf m a) < 1 / 10 ^ 10) →
          0 < stdR (mouthNormOf m a) ∧ 0 < stdR (audioNormOf m a)) := by
  intro m a
  constructor
  · intro hguard
    unfold correlateWithAudio
    rcases Classical.em (m.length < 2 ∨ a.length < 2) with h1 | h1
    · rw [if_pos h1]
    · rw [if_neg h1, if_pos hguard]
  · intro hguard
    push_neg at hguard
    exact ⟨lt_of_lt_of_le (by norm_num) hguard.1,
      lt_of_lt_of_le (by norm_num) hguard.2⟩

/-- Witness for C8: the constant mouth window [0, 0] against the audio window
[0, 1] has zero mouth standard deviation, hence correlation exactly 0. -/
theorem correlate_degenerate_guard_witness :
    stdR (mouthNormOf [(0 : ℝ), 0] [0, 1]) < 1 / 10 ^ 10 ∧
      correlateWithAudio [(0 : ℝ), 0] [0, 1] = 0 := by
  have hstd : stdR (mouthNormOf [(0 : ℝ), 0] [0, 1]) = 0 := by
    have hm : mouthNormOf [(0 : ℝ), 0] [0, 1] = [0, 0] := by
      norm_num [mouthNormOf, windowLen, meanR]
    rw [hm]
    norm_num [stdR, varR, meanR, Real.sqrt_zero]
  refine ⟨by rw [hstd]; norm_num, ?_⟩
  exact (correlate_degenerate_guard [(0 : ℝ), 0] [0, 1]).1
    (Or.inl (by rw [hstd]; norm_num))
